import Mathlib

/-!
Verification of the OpenRouter reasoning-tokens pipe
(src/openrouter_reasoning_tokens_pipe.py) against its specification.

The development embeds the source shallowly:
- the request normalizer of Pipe.pipe (lines 57-65);
- the per-event body of the streaming loop in Pipe._handle_streaming_request
  (lines 125-151), with thinking_state kept as the integer sentinel the
  source uses (-1 not started, 0 thinking, 1 answered);
- construct_chunk (lines 103-114) as a builder of the JSON body it serializes;
- the non-streaming path _handle_normal_request (lines 83-100) and the
  try/except structure of pipe (lines 74-81), where the coroutine returned
  by an async def is modelled as an unevaluated function that runs only
  when the caller awaits it.

External collaborators (httpx transport, json.loads) are modelled by their
outcomes: a transport outcome is either a failure message or a decoded body,
and a data line carries either a decoded event or an invalid payload.
-/

namespace ORT

/-- A delta object of the first choice of an upstream event: the two fields
the source reads, each possibly absent (source lines 133, 136, 140, 145). -/
structure Delta where
  reasoning : Option String
  content : Option String
deriving DecidableEq

/-- One element of the choices list of an upstream event: the source reads
its delta (line 133) and its finish_reason (line 149). -/
structure Choice where
  delta : Option Delta
  finish_reason : Option String
deriving DecidableEq

/-- One decoded upstream JSON event: the source reads its id (inside
construct_chunk, line 105) and its choices list (line 132). -/
structure UpstreamEvent where
  id : Option String
  choices : Option (List Choice)
deriving DecidableEq

/-- Python truthiness of an optional string: None and the empty string are
falsy, every other string is truthy. -/
def truthy : Option String → Bool
  | none => false
  | some s => !s.isEmpty

/-- The delta with neither field, the default of choice.get with an empty
dict (source line 133). -/
def emptyDelta : Delta := ⟨none, none⟩

/-- The choice with no fields, the default element of
data.get with a singleton list of an empty dict (source line 132). -/
def emptyChoice : Choice := ⟨none, none⟩

/-- Source line 132: data.get of choices with a one-element default list,
indexed at 0. A missing choices key yields the default empty choice; a
present but empty list makes the indexing fail (Python IndexError), which
none models. -/
def firstChoice (e : UpstreamEvent) : Option Choice :=
  match e.choices with
  | none => some emptyChoice
  | some cs => cs.head?

/-- An output event of the streaming generator, tagged by which yield of the
source produced it: marker for the two state-transition yields (lines 138
and 142), chunk for the content yield (line 147), done for the terminal
sentinel line (line 150). Marker and chunk events are both serialized by
construct_chunk with the id of the current event; done serializes to the
literal DONE line. -/
inductive OutEvent where
  | marker (id : Option String) (content : String)
  | chunk (id : Option String) (content : String)
  | done
deriving DecidableEq

/-- Source lines 136-142: the state-transition block. Returns the yielded
transition chunks and the new thinking_state. -/
def stepMarkers (st : Int) (d : Delta) (eid : Option String) : List OutEvent × Int :=
  if st = -1 ∧ truthy d.reasoning = true then
    ([OutEvent.marker eid "<think>"], 0)
  else if st = 0 ∧ truthy d.reasoning = false ∧ truthy d.content = true then
    ([OutEvent.marker eid "</think>\n\n"], 1)
  else ([], st)

/-- Source line 145: content is the reasoning string when truthy, else the
content string defaulted to empty. -/
def contentOf (d : Delta) : String :=
  if truthy d.reasoning = true then d.reasoning.getD "" else d.content.getD ""

/-- Source lines 145-147: the content yield, emitted only when the selected
text is non-empty. -/
def stepContent (d : Delta) (eid : Option String) : List OutEvent :=
  if (contentOf d).isEmpty then [] else [OutEvent.chunk eid (contentOf d)]

/-- Source lines 131-151, one iteration of the event loop on a decoded
event: extract the first choice and its delta, run the transition block,
the content yield and the termination check. Returns none when the choices
list is present but empty (Python IndexError at line 132); otherwise the
yielded events, the new thinking_state, and whether the loop returns. -/
def stepEvent (st : Int) (e : UpstreamEvent) : Option (List OutEvent × Int × Bool) :=
  match firstChoice e with
  | none => none
  | some ch =>
    let d := ch.delta.getD emptyDelta
    let ms := stepMarkers st d e.id
    let fin := truthy ch.finish_reason
    some (ms.1 ++ stepContent d e.id ++ (if fin then [OutEvent.done] else []), ms.2, fin)

/-- Payload of a data line: either a decoded JSON event or a payload on
which json.loads raises (source line 131). -/
inductive Payload where
  | valid (e : UpstreamEvent)
  | invalid
deriving DecidableEq

/-- One line of the upstream response body: either a line that does not
begin with the data marker and is skipped (source lines 128-129), or a data
line with its payload. -/
inductive Line where
  | other
  | dataLine (p : Payload)
deriving DecidableEq

/-- Errors that abort the streaming loop: a json.loads failure on a data
line, or the IndexError of indexing an empty choices list. -/
inductive StreamErr where
  | decodeErr
  | indexErr
deriving DecidableEq

/-- Result of running the streaming loop on a list of lines: the events
yielded in order, the final thinking_state, whether the loop returned
through the termination branch, and the error that aborted it, if any. -/
structure RunResult where
  out : List OutEvent
  final : Int
  halted : Bool
  err : Option StreamErr
deriving DecidableEq

/-- Source lines 125-151: the whole event loop, from a given
thinking_state, over the remaining lines of the response body. Non-data
lines are skipped; an invalid payload raises out of the loop; after the
terminal yield the loop returns and consumes nothing further. -/
def runLines : Int → List Line → RunResult
  | st, [] => ⟨[], st, false, none⟩
  | st, Line.other :: rest => runLines st rest
  | st, Line.dataLine Payload.invalid :: _ => ⟨[], st, false, some StreamErr.decodeErr⟩
  | st, Line.dataLine (Payload.valid e) :: rest =>
    match stepEvent st e with
    | none => ⟨[], st, false, some StreamErr.indexErr⟩
    | some (ys, st2, fin) =>
      if fin then ⟨ys, st2, true, none⟩
      else
        let r := runLines st2 rest
        ⟨ys ++ r.out, r.final, r.halted, r.err⟩

/-- Events of a trace that are delimiter markers. -/
def isMarker : OutEvent → Bool
  | OutEvent.marker _ _ => true
  | _ => false

/-- Events of a trace that are the terminal sentinel. -/
def isDone : OutEvent → Bool
  | OutEvent.done => true
  | _ => false

/-- The delimiter-marker events of a trace. -/
def markersOf (l : List OutEvent) : List OutEvent := l.filter isMarker

/-- How many terminal sentinels a trace carries. -/
def numDone (l : List OutEvent) : Nat := (l.filter isDone).length

/-- The delta the loop extracts from an event, with all defaults applied. -/
def extractDelta (e : UpstreamEvent) : Delta :=
  ((firstChoice e).getD emptyChoice).delta.getD emptyDelta

/-- A line whose extracted delta does not carry a truthy reasoning field. -/
def noReasoningLine : Line → Bool
  | Line.dataLine (Payload.valid e) => !truthy (extractDelta e).reasoning
  | _ => true

/-- A line whose event carries a truthy finish_reason on its first choice. -/
def hasFinish : Line → Bool
  | Line.dataLine (Payload.valid e) =>
    match firstChoice e with
    | some ch => truthy ch.finish_reason
    | none => false
  | _ => false

/-- Outcome of opening the streaming POST: either the transport or the
status check fails before any body line is read (source lines 117-123), or
the body is available as a list of lines. -/
inductive StreamOutcome where
  | failure (msg : String)
  | okStream (lines : List Line)

/-- Source lines 102-151: the body of the async generator returned by the
streaming path, as run when the caller iterates it. A transport failure
propagates as an error; otherwise the loop runs from thinking_state -1. -/
def handleStreamingRequest : StreamOutcome → Except String RunResult
  | StreamOutcome.failure msg => Except.error msg
  | StreamOutcome.okStream lines => Except.ok (runLines (-1) lines)

/-- Message object of a choice of the buffered non-streaming response
(source lines 93-99). -/
structure NMessage where
  reasoning : Option String
  content : Option String
deriving DecidableEq

/-- Choice of the buffered non-streaming response. -/
structure NChoice where
  message : Option NMessage
deriving DecidableEq

/-- The buffered non-streaming response body. -/
structure NormalResponse where
  choices : Option (List NChoice)
deriving DecidableEq

/-- Source lines 95-99: a message with a reasoning field has its content
rewritten to the think-wrapped reasoning followed by the original content.
Reading the original content raises a KeyError when that field is missing,
which none models. -/
def reshapeMessage (m : NMessage) : Option NMessage :=
  match m.reasoning with
  | none => some m
  | some r =>
    match m.content with
    | none => none
    | some c => some ⟨some r, some ("<think>" ++ r ++ "</think>\n" ++ c)⟩

/-- Source lines 94-99: a choice without a message key is untouched. -/
def reshapeChoice (c : NChoice) : Option NChoice :=
  match c.message with
  | none => some c
  | some m => (reshapeMessage m).map fun m2 => ⟨some m2⟩

/-- Source lines 93-100: rewrite every choice of the buffered response; a
response without a choices key is returned verbatim. -/
def reshapeResponse (d : NormalResponse) : Option NormalResponse :=
  match d.choices with
  | none => some d
  | some cs => (cs.mapM reshapeChoice).map fun cs2 => ⟨some cs2⟩

/-- Outcome of the non-streaming POST: connection failure, timeout or a
non-success status raised by raise_for_status (source lines 84-90), or the
decoded response body. -/
inductive TransportOutcome where
  | failure (msg : String)
  | success (data : NormalResponse)

/-- Source lines 83-100: the body of the _handle_normal_request coroutine,
as run when the caller awaits it. Transport errors and the KeyError of the
reshape propagate as exceptions. -/
def handleNormalRequest : TransportOutcome → Except String NormalResponse
  | TransportOutcome.failure msg => Except.error msg
  | TransportOutcome.success data =>
    match reshapeResponse data with
    | none => Except.error "KeyError: content"
    | some d2 => Except.ok d2

/-- Inbound request body: the fields the source touches. All other fields
are copied through unchanged and are not modelled. -/
structure InboundBody where
  model : Option String
  stream : Bool
  include_reasoning : Bool
deriving DecidableEq

/-- Source line 62, first half: Python split on the dot with maxsplit one,
indexed at minus one. Returns the characters after the first dot when one
occurs. -/
def splitAtFirstDot : List Char → Option (List Char)
  | [] => none
  | c :: cs => if c = '.' then some cs else splitAtFirstDot cs

/-- Drops pat from the front of s when s starts with pat. -/
def dropTok : List Char → List Char → Option (List Char)
  | [], s => some s
  | _ :: _, [] => none
  | p :: ps, c :: cs => if p = c then dropTok ps cs else none

/-- Source line 62, second half: Python replace of the first occurrence of
pat, anywhere in the string, by the empty string. -/
def replaceFirstTok (pat : List Char) : List Char → List Char
  | [] => []
  | c :: cs =>
    match dropTok pat (c :: cs) with
    | some rest => rest
    | none => c :: replaceFirstTok pat cs

/-- Source line 62: the model rewrite of Pipe.pipe, composing the split at
the first dot with the removal of the first occurrence of the routing
token. -/
def normalizeModel (m : String) : String :=
  String.mk (replaceFirstTok "reasoning/".data ((splitAtFirstDot m.data).getD m.data))

/-- Source lines 58-65: the request normalizer, mapping the rewrite over a
present model field and setting include_reasoning. -/
def normalizeBody (b : InboundBody) : InboundBody :=
  { model := b.model.map normalizeModel, stream := b.stream, include_reasoning := true }

/-- Index of the first dot of s, when one occurs. Reference primitive for
the amended normalizer statement, independent of splitAtFirstDot. -/
def idxOfDot : List Char → Option Nat
  | [] => none
  | c :: cs => if c = '.' then some 0 else (idxOfDot cs).map (· + 1)

/-- Reference form of the split: drop everything through the first dot. -/
def afterFirstDotRef (s : List Char) : List Char :=
  match idxOfDot s with
  | none => s
  | some i => s.drop (i + 1)

/-- Index of the first position of s at which pat occurs. -/
def firstTokIdx (pat : List Char) : List Char → Option Nat
  | [] => if pat.isEmpty then some 0 else none
  | c :: cs =>
    if (dropTok pat (c :: cs)).isSome then some 0
    else (firstTokIdx pat cs).map (· + 1)

/-- Reference form of the replacement: cut pat out at its first occurrence
position. -/
def removeFirstTok (pat s : List Char) : List Char :=
  match firstTokIdx pat s with
  | none => s
  | some i => s.take i ++ s.drop (i + pat.length)

/-- Reference normalizer built from the index-based primitives: strips
everything through the first dot, then removes the first occurrence of the
routing token anywhere in the string. -/
def refNormalizeModel (m : String) : String :=
  String.mk (removeFirstTok "reasoning/".data (afterFirstDotRef m.data))

/-- Characters after the last dot of s, the whole of s when no dot occurs.
Primitive of the normalizer as the specification words it. -/
def afterLastDot (s : List Char) : List Char :=
  match idxOfDot s.reverse with
  | none => s
  | some i => (s.reverse.take i).reverse

/-- Removal of tok only when it stands at the very front of s. Primitive of
the normalizer as the specification words it. -/
def dropTokFront (pat s : List Char) : List Char := (dropTok pat s).getD s

/-- The normalization exactly as the specification describes it: strip
before the last dot separator, then remove the routing token from the front
when present. Written only to compare with normalizeModel, which is the
translation of the source. -/
def specNormalizeModel (m : String) : String :=
  String.mk (dropTokFront "reasoning/".data (afterLastDot m.data))

/-- What Pipe.pipe hands back to its caller (source lines 74-81). The
errorPayload constructor is the json.dumps of the except clause. Because
pipe is an async def and returns the callee without awaiting it, the other
two constructors carry the outbound body together with the still-unrun
coroutine or generator body, which executes only when the caller awaits or
iterates it, outside the try block of pipe. -/
inductive PipeReturn where
  | errorPayload (msg : String)
  | normalTask (outbound : InboundBody) (run : TransportOutcome → Except String NormalResponse)
  | streamTask (outbound : InboundBody) (run : StreamOutcome → Except String RunResult)

/-- Source lines 57-81: build the modified body, then return the unawaited
coroutine of the chosen path. Nothing inside the try block can raise, so
the except clause producing the structured error payload never runs. -/
def pipe (b : InboundBody) : PipeReturn :=
  let modified := normalizeBody b
  if b.stream then PipeReturn.streamTask modified handleStreamingRequest
  else PipeReturn.normalTask modified handleNormalRequest

/-- Whether a pipe return value is the structured error payload. -/
def isErrorPayload : PipeReturn → Bool
  | PipeReturn.errorPayload _ => true
  | _ => false

/-- JSON values, the shape json.dumps serializes and json.loads decodes. -/
inductive Json where
  | null
  | str (s : String)
  | num (n : Int)
  | boolean (b : Bool)
  | arr (elems : List Json)
  | obj (fields : List (String × Json))

/-- Python None serializes to null, a string to itself. -/
def optStr : Option String → Json
  | none => Json.null
  | some s => Json.str s

/-- Source lines 103-114: the JSON body of the wire line construct_chunk
builds, with the values the closure reads passed explicitly: the id of the
current event, the model of the outbound body, the creation timestamp taken
at emission time, and the delta content. The wire line is the data marker,
this body serialized, and two line terminators. -/
def construct_chunk (eid model : Option String) (created : Int) (content : String) : Json :=
  Json.obj
    [("id", optStr eid),
     ("object", Json.str "chat.completion.chunk"),
     ("created", Json.num created),
     ("model", optStr model),
     ("choices", Json.arr
       [Json.obj
         [("index", Json.num 0),
          ("delta", Json.obj [("content", Json.str content), ("role", Json.str "assistant")]),
          ("finish_reason", Json.null)]])]

/-- First binding of a key in a JSON object field list. -/
def getField : List (String × Json) → String → Option Json
  | [], _ => none
  | (k, v) :: rest, key => if k = key then some v else getField rest key

/-- Reads an object. -/
def asObj : Json → Option (List (String × Json))
  | Json.obj fs => some fs
  | _ => none

/-- Reads a string. -/
def asStr : Json → Option String
  | Json.str s => some s
  | _ => none

/-- Reads a nullable string. -/
def asNullableStr : Json → Option (Option String)
  | Json.null => some none
  | Json.str s => some (some s)
  | _ => none

/-- Reads a number. -/
def asInt : Json → Option Int
  | Json.num n => some n
  | _ => none

/-- The structural fields of a decoded chunk body, every field except the
creation timestamp. -/
structure ChunkFields where
  id : Option String
  object : String
  model : Option String
  index : Int
  content : String
  role : String
  finish_reason : Option String
deriving DecidableEq

/-- Decode the parts of one choice object: its index, its delta content and
role, and its finish_reason. -/
def decodeChoice (c : Json) : Option (Int × String × String × Option String) :=
  (asObj c).bind fun cfs =>
  (getField cfs "index").bind fun idxJ =>
  (asInt idxJ).bind fun idx =>
  (getField cfs "delta").bind fun dJ =>
  (asObj dJ).bind fun deltaJ =>
  (getField deltaJ "content").bind fun coJ =>
  (asStr coJ).bind fun co =>
  (getField deltaJ "role").bind fun roJ =>
  (asStr roJ).bind fun ro =>
  (getField cfs "finish_reason").bind fun frJ =>
  (asNullableStr frJ).map fun fr => (idx, co, ro, fr)

/-- Decode the structural fields back out of a chunk JSON body: the id, the
object literal, the model, and the single-element choices array with its
index, delta content, delta role and finish_reason. -/
def decodeChunk (j : Json) : Option ChunkFields :=
  (asObj j).bind fun fs =>
  (getField fs "id").bind fun idJ =>
  (asNullableStr idJ).bind fun idv =>
  (getField fs "object").bind fun obJ =>
  (asStr obJ).bind fun ob =>
  (getField fs "model").bind fun moJ =>
  (asNullableStr moJ).bind fun mo =>
  (getField fs "choices").bind fun choicesJ =>
  match choicesJ with
  | Json.arr [c] =>
    (decodeChoice c).map fun q => ⟨idv, ob, mo, q.1, q.2.1, q.2.2.1, q.2.2.2⟩
  | _ => none

lemma markersOf_append (a b : List OutEvent) :
    markersOf (a ++ b) = markersOf a ++ markersOf b := by
  simp [markersOf, List.filter_append]

lemma numDone_append (a b : List OutEvent) :
    numDone (a ++ b) = numDone a + numDone b := by
  simp [numDone, List.filter_append]

lemma markersOf_stepContent (d : Delta) (eid : Option String) :
    markersOf (stepContent d eid) = [] := by
  unfold stepContent; split <;> rfl

lemma numDone_stepContent (d : Delta) (eid : Option String) :
    numDone (stepContent d eid) = 0 := by
  unfold stepContent; split <;> rfl

lemma numDone_stepMarkers (st : Int) (d : Delta) (eid : Option String) :
    numDone (stepMarkers st d eid).1 = 0 := by
  unfold stepMarkers
  split
  · rfl
  · split <;> rfl

lemma markersOf_term (fin : Bool) :
    markersOf (if fin then [OutEvent.done] else []) = [] := by
  cases fin <;> rfl

lemma numDone_term (fin : Bool) :
    numDone (if fin then [OutEvent.done] else []) = if fin then 1 else 0 := by
  cases fin <;> rfl

lemma stepMarkers_mono (st : Int) (d : Delta) (eid : Option String) :
    st ≤ (stepMarkers st d eid).2 := by
  unfold stepMarkers
  split
  · rename_i h; obtain ⟨h1, -⟩ := h; subst h1
    show (-1 : Int) ≤ 0; decide
  · split
    · rename_i h; obtain ⟨h1, -, -⟩ := h; subst h1
      show (0 : Int) ≤ 1; decide
    · exact le_refl st

lemma stepMarkers_answered (d : Delta) (eid : Option String) :
    stepMarkers 1 d eid = ([], 1) := by
  unfold stepMarkers
  split
  · rename_i h; exact absurd h.1 (by decide)
  · split
    · rename_i h; exact absurd h.1 (by decide)
    · rfl

lemma stepMarkers_noReasoning (d : Delta) (eid : Option String)
    (h : truthy d.reasoning = false) :
    stepMarkers (-1) d eid = ([], -1) := by
  unfold stepMarkers
  split
  · rename_i hc; rw [h] at hc; exact absurd hc.2 (by decide)
  · split
    · rename_i hc; exact absurd hc.1 (by decide)
    · rfl

lemma stepEvent_shape (st : Int) (e : UpstreamEvent) (ys : List OutEvent) (st2 : Int)
    (fin : Bool) (h : stepEvent st e = some (ys, st2, fin)) :
    ∃ ch, firstChoice e = some ch ∧
      fin = truthy ch.finish_reason ∧
      st2 = (stepMarkers st (ch.delta.getD emptyDelta) e.id).2 ∧
      ys = (stepMarkers st (ch.delta.getD emptyDelta) e.id).1 ++
        stepContent (ch.delta.getD emptyDelta) e.id ++
        (if truthy ch.finish_reason then [OutEvent.done] else []) := by
  cases hc : firstChoice e with
  | none => simp [stepEvent, hc] at h
  | some ch =>
    simp only [stepEvent, hc, Option.some.injEq, Prod.mk.injEq] at h
    obtain ⟨h1, h2, h3⟩ := h
    exact ⟨ch, rfl, h3.symm, h2.symm, h1.symm⟩

lemma run_mono (lines : List Line) : ∀ st : Int, st ≤ (runLines st lines).final := by
  induction lines with
  | nil => intro st; exact le_refl st
  | cons l rest ih =>
    intro st
    cases l with
    | other => simp only [runLines]; exact ih st
    | dataLine p =>
      cases p with
      | invalid => exact le_refl st
      | valid e =>
        simp only [runLines]
        cases hst : stepEvent st e with
        | none => exact le_refl st
        | some tpl =>
          obtain ⟨ys, st2, fin⟩ := tpl
          obtain ⟨ch, hch, hfin, hst2, hys⟩ := stepEvent_shape st e ys st2 fin hst
          have h1 : st ≤ st2 := by
            rw [hst2]; exact stepMarkers_mono st (ch.delta.getD emptyDelta) e.id
          cases fin with
          | true => exact h1
          | false => exact le_trans h1 (ih st2)

lemma markersOf_nil : markersOf [] = [] := rfl

lemma numDone_nil : numDone [] = 0 := rfl

lemma runLines_cons_other (st : Int) (rest : List Line) :
    runLines st (Line.other :: rest) = runLines st rest := rfl

lemma runLines_cons_invalid (st : Int) (rest : List Line) :
    runLines st (Line.dataLine Payload.invalid :: rest) =
      ⟨[], st, false, some StreamErr.decodeErr⟩ := rfl

lemma runLines_cons_valid_none (st : Int) (e : UpstreamEvent) (rest : List Line)
    (hst : stepEvent st e = none) :
    runLines st (Line.dataLine (Payload.valid e) :: rest) =
      ⟨[], st, false, some StreamErr.indexErr⟩ := by
  simp only [runLines, hst]

lemma runLines_cons_valid_halt (st : Int) (e : UpstreamEvent) (rest : List Line)
    (ys : List OutEvent) (st2 : Int) (hst : stepEvent st e = some (ys, st2, true)) :
    runLines st (Line.dataLine (Payload.valid e) :: rest) = ⟨ys, st2, true, none⟩ := by
  simp only [runLines, hst]; rfl

lemma runLines_cons_valid_go (st : Int) (e : UpstreamEvent) (rest : List Line)
    (ys : List OutEvent) (st2 : Int) (hst : stepEvent st e = some (ys, st2, false)) :
    runLines st (Line.dataLine (Payload.valid e) :: rest) =
      ⟨ys ++ (runLines st2 rest).out, (runLines st2 rest).final,
       (runLines st2 rest).halted, (runLines st2 rest).err⟩ := by
  simp only [runLines, hst]; rfl

lemma extractDelta_eq (e : UpstreamEvent) (ch : Choice) (h : firstChoice e = some ch) :
    extractDelta e = ch.delta.getD emptyDelta := by
  simp [extractDelta, h]

lemma run_answered_no_markers (lines : List Line) :
    markersOf (runLines 1 lines).out = [] := by
  induction lines with
  | nil => rfl
  | cons l rest ih =>
    cases l with
    | other => simp only [runLines]; exact ih
    | dataLine p =>
      cases p with
      | invalid => rfl
      | valid e =>
        simp only [runLines]
        cases hst : stepEvent 1 e with
        | none => rfl
        | some tpl =>
          obtain ⟨ys, st2, fin⟩ := tpl
          obtain ⟨ch, hch, hfin, hst2, hys⟩ := stepEvent_shape 1 e ys st2 fin hst
          rw [stepMarkers_answered] at hst2 hys
          subst hst2
          cases fin with
          | true =>
            show markersOf ys = []
            rw [hys]
            simp [markersOf_append, markersOf_stepContent, markersOf_term, markersOf_nil]
          | false =>
            show markersOf (ys ++ (runLines 1 rest).out) = []
            rw [markersOf_append, ih, hys]
            simp [markersOf_append, markersOf_stepContent, markersOf_term, markersOf_nil]

lemma run_noReasoning_no_markers (lines : List Line) (h : lines.all noReasoningLine = true) :
    markersOf (runLines (-1) lines).out = [] := by
  induction lines with
  | nil => rfl
  | cons l rest ih =>
    rw [List.all_cons, Bool.and_eq_true] at h
    obtain ⟨hl, hrest⟩ := h
    cases l with
    | other => simp only [runLines]; exact ih hrest
    | dataLine p =>
      cases p with
      | invalid => rfl
      | valid e =>
        simp only [runLines]
        cases hst : stepEvent (-1) e with
        | none => rfl
        | some tpl =>
          obtain ⟨ys, st2, fin⟩ := tpl
          obtain ⟨ch, hch, hfin, hst2, hys⟩ := stepEvent_shape (-1) e ys st2 fin hst
          simp only [noReasoningLine, Bool.not_eq_true'] at hl
          rw [extractDelta_eq e ch hch] at hl
          rw [stepMarkers_noReasoning _ _ hl] at hst2 hys
          subst hst2
          cases fin with
          | true =>
            show markersOf ys = []
            rw [hys]
            simp [markersOf_append, markersOf_stepContent, markersOf_term, markersOf_nil]
          | false =>
            show markersOf (ys ++ (runLines (-1) rest).out) = []
            rw [markersOf_append, ih hrest, hys]
            simp [markersOf_append, markersOf_stepContent, markersOf_term, markersOf_nil]

lemma numDone_run (lines : List Line) :
    ∀ st : Int, numDone (runLines st lines).out =
      if (runLines st lines).halted then 1 else 0 := by
  induction lines with
  | nil => intro st; rfl
  | cons l rest ih =>
    intro st
    cases l with
    | other => simp only [runLines]; exact ih st
    | dataLine p =>
      cases p with
      | invalid => rfl
      | valid e =>
        simp only [runLines]
        cases hst : stepEvent st e with
        | none => rfl
        | some tpl =>
          obtain ⟨ys, st2, fin⟩ := tpl
          obtain ⟨ch, hch, hfin, hst2, hys⟩ := stepEvent_shape st e ys st2 fin hst
          cases fin with
          | true =>
            show numDone ys = 1
            rw [hys, numDone_append, numDone_append, numDone_stepMarkers,
              numDone_stepContent, numDone_term, ← hfin]
            rfl
          | false =>
            show numDone (ys ++ (runLines st2 rest).out) =
              if (runLines st2 rest).halted then 1 else 0
            rw [numDone_append, hys, numDone_append, numDone_append, numDone_stepMarkers,
              numDone_stepContent, numDone_term, ← hfin, ih st2]
            simp

lemma run_halted_finish (lines : List Line) :
    ∀ st : Int, (runLines st lines).halted = true → lines.any hasFinish = true := by
  induction lines with
  | nil => intro st h; exact Bool.noConfusion h
  | cons l rest ih =>
    intro st h
    simp only [List.any_cons, Bool.or_eq_true]
    cases l with
    | other =>
      rw [runLines_cons_other] at h
      exact Or.inr (ih st h)
    | dataLine p =>
      cases p with
      | invalid => rw [runLines_cons_invalid] at h; exact Bool.noConfusion h
      | valid e =>
        cases hst : stepEvent st e with
        | none =>
          rw [runLines_cons_valid_none st e rest hst] at h
          exact Bool.noConfusion h
        | some tpl =>
          obtain ⟨ys, st2, fin⟩ := tpl
          obtain ⟨ch, hch, hfin, -, -⟩ := stepEvent_shape st e ys st2 fin hst
          cases fin with
          | false =>
            rw [runLines_cons_valid_go st e rest ys st2 hst] at h
            exact Or.inr (ih st2 h)
          | true =>
            refine Or.inl ?_
            simp only [hasFinish, hch]
            exact hfin.symm

lemma run_append_halted (lines : List Line) :
    ∀ (st : Int) (extra : List Line), (runLines st lines).halted = true →
      runLines st (lines ++ extra) = runLines st lines := by
  induction lines with
  | nil => intro st extra h; exact Bool.noConfusion h
  | cons l rest ih =>
    intro st extra h
    cases l with
    | other =>
      rw [runLines_cons_other] at h
      rw [List.cons_append, runLines_cons_other]
      exact ih st extra h
    | dataLine p =>
      cases p with
      | invalid => rw [runLines_cons_invalid] at h; exact Bool.noConfusion h
      | valid e =>
        cases hst : stepEvent st e with
        | none =>
          rw [runLines_cons_valid_none st e rest hst] at h
          exact Bool.noConfusion h
        | some tpl =>
          obtain ⟨ys, st2, fin⟩ := tpl
          cases fin with
          | true =>
            rw [List.cons_append, runLines_cons_valid_halt st e rest ys st2 hst,
              runLines_cons_valid_halt st e (rest ++ extra) ys st2 hst]
          | false =>
            rw [runLines_cons_valid_go st e rest ys st2 hst] at h ⊢
            rw [List.cons_append, runLines_cons_valid_go st e (rest ++ extra) ys st2 hst]
            rw [ih st2 extra h]

lemma run_append_clean (lines : List Line) :
    ∀ (st : Int) (extra : List Line),
      (runLines st lines).halted = false → (runLines st lines).err = none →
      runLines st (lines ++ extra) =
        ⟨(runLines st lines).out ++ (runLines (runLines st lines).final extra).out,
         (runLines (runLines st lines).final extra).final,
         (runLines (runLines st lines).final extra).halted,
         (runLines (runLines st lines).final extra).err⟩ := by
  induction lines with
  | nil => intro st extra h1 h2; rfl
  | cons l rest ih =>
    intro st extra h1 h2
    cases l with
    | other =>
      rw [runLines_cons_other] at h1 h2
      rw [List.cons_append, runLines_cons_other, runLines_cons_other]
      exact ih st extra h1 h2
    | dataLine p =>
      cases p with
      | invalid => rw [runLines_cons_invalid] at h2; exact Option.noConfusion h2
      | valid e =>
        cases hst : stepEvent st e with
        | none =>
          rw [runLines_cons_valid_none st e rest hst] at h2
          exact Option.noConfusion h2
        | some tpl =>
          obtain ⟨ys, st2, fin⟩ := tpl
          cases fin with
          | true =>
            rw [runLines_cons_valid_halt st e rest ys st2 hst] at h1
            exact Bool.noConfusion h1
          | false =>
            rw [runLines_cons_valid_go st e rest ys st2 hst] at h1 h2
            rw [List.cons_append, runLines_cons_valid_go st e (rest ++ extra) ys st2 hst,
              runLines_cons_valid_go st e rest ys st2 hst]
            rw [ih st2 extra h1 h2]
            simp [List.append_assoc]

lemma dropTok_drop : ∀ (pat s rest : List Char), dropTok pat s = some rest →
    rest = s.drop pat.length := by
  intro pat
  induction pat with
  | nil =>
    intro s rest h
    simp only [dropTok, Option.some.injEq] at h
    simp [h]
  | cons p ps ih =>
    intro s rest h
    cases s with
    | nil => simp [dropTok] at h
    | cons c cs =>
      simp only [dropTok] at h
      split at h
      · simpa using ih cs rest h
      · exact Option.noConfusion h

lemma firstTokIdx_pos (pat : List Char) (c : Char) (cs : List Char)
    (hdt : dropTok pat (c :: cs) = some rest) :
    firstTokIdx pat (c :: cs) = some 0 := by
  simp [firstTokIdx, hdt]

lemma firstTokIdx_neg (pat : List Char) (c : Char) (cs : List Char)
    (hdt : dropTok pat (c :: cs) = none) :
    firstTokIdx pat (c :: cs) = (firstTokIdx pat cs).map (· + 1) := by
  simp [firstTokIdx, hdt]

lemma replaceFirstTok_eq (pat : List Char) : ∀ s : List Char,
    replaceFirstTok pat s = removeFirstTok pat s := by
  intro s
  induction s with
  | nil => cases pat <;> rfl
  | cons c cs ih =>
    cases hdt : dropTok pat (c :: cs) with
    | some rest =>
      have h1 : rest = (c :: cs).drop pat.length := dropTok_drop pat (c :: cs) rest hdt
      simp only [replaceFirstTok, hdt, removeFirstTok, firstTokIdx_pos pat c cs hdt]
      simp [h1]
    | none =>
      simp only [replaceFirstTok, hdt, removeFirstTok, firstTokIdx_neg pat c cs hdt]
      cases hfi : firstTokIdx pat cs with
      | none =>
        have h3 : removeFirstTok pat cs = cs := by simp [removeFirstTok, hfi]
        rw [ih, h3]
        rfl
      | some i =>
        have h3 : removeFirstTok pat cs = cs.take i ++ cs.drop (i + pat.length) := by
          simp [removeFirstTok, hfi]
        rw [ih, h3]
        show c :: (cs.take i ++ cs.drop (i + pat.length)) =
          (c :: cs).take (i + 1) ++ (c :: cs).drop (i + 1 + pat.length)
        rw [List.take_succ_cons]
        rw [show i + 1 + pat.length = (i + pat.length) + 1 by omega]
        rw [List.drop_succ_cons]
        rfl

lemma splitAtFirstDot_idx : ∀ s : List Char,
    (idxOfDot s = none ∧ splitAtFirstDot s = none) ∨
    (∃ i, idxOfDot s = some i ∧ splitAtFirstDot s = some (s.drop (i + 1))) := by
  intro s
  induction s with
  | nil => exact Or.inl ⟨rfl, rfl⟩
  | cons c cs ih =>
    by_cases hc : c = '.'
    · exact Or.inr ⟨0, by simp [idxOfDot, hc], by simp [splitAtFirstDot, hc]⟩
    · rcases ih with ⟨h1, h2⟩ | ⟨i, h1, h2⟩
      · exact Or.inl ⟨by simp [idxOfDot, hc, h1], by simp [splitAtFirstDot, hc, h2]⟩
      · refine Or.inr ⟨i + 1, by simp [idxOfDot, hc, h1], ?_⟩
        simp [splitAtFirstDot, hc, h2]

lemma splitAtFirstDot_eq (s : List Char) :
    (splitAtFirstDot s).getD s = afterFirstDotRef s := by
  rcases splitAtFirstDot_idx s with ⟨h1, h2⟩ | ⟨i, h1, h2⟩
  · simp [afterFirstDotRef, h1, h2]
  · simp [afterFirstDotRef, h1, h2]

lemma normalizeModel_eq_ref (m : String) : normalizeModel m = refNormalizeModel m := by
  unfold normalizeModel refNormalizeModel
  rw [splitAtFirstDot_eq, replaceFirstTok_eq]

lemma stepMarkers_emptyDelta (st : Int) (eid : Option String) :
    stepMarkers st emptyDelta eid = ([], st) := by
  unfold stepMarkers
  split
  · rename_i h; exact absurd h.2 (by decide)
  · split
    · rename_i h; exact absurd h.2.2 (by decide)
    · rfl

lemma stepContent_emptyDelta (eid : Option String) : stepContent emptyDelta eid = [] := rfl

lemma truthy_getD_not_empty (o : Option String) (h : truthy o = true) :
    (o.getD "").isEmpty = false := by
  cases o with
  | none => exact absurd h (by decide)
  | some s => simpa [truthy, Bool.not_eq_true'] using h

/-- Claim C1: on the upstream event sequence of scenario A, the streaming
transducer emits exactly the opening marker chunk, the two reasoning
chunks, the closing marker chunk, the answer chunk and the terminal
sentinel, in that order and nothing else, halting there with no error. -/
theorem c1_scenario_a :
    runLines (-1)
      [Line.dataLine (Payload.valid ⟨none, some [⟨some ⟨some "Let me think", none⟩, none⟩]⟩),
       Line.dataLine (Payload.valid ⟨none, some [⟨some ⟨some " more", none⟩, none⟩]⟩),
       Line.dataLine (Payload.valid ⟨none, some [⟨some ⟨none, some "42"⟩, none⟩]⟩),
       Line.dataLine (Payload.valid ⟨none, some [⟨none, some "stop"⟩]⟩)] =
      ⟨[OutEvent.marker none "<think>", OutEvent.chunk none "Let me think",
        OutEvent.chunk none " more", OutEvent.marker none "</think>\n\n",
        OutEvent.chunk none "42", OutEvent.done], 1, true, none⟩ := by
  decide

/-- Claim C2, amended: the normalizer strips the model identifier of
everything up to and including the first dot separator when one is present,
then removes the first occurrence of the routing token anywhere in the
string, sets include_reasoning, and passes a missing model field through
unchanged. Stated as agreement with the reference normalizer built from
independent index-based primitives. -/
theorem c2_normalizer_amended (b : InboundBody) :
    normalizeBody b = ⟨b.model.map refNormalizeModel, b.stream, true⟩ := by
  unfold normalizeBody
  have h : b.model.map normalizeModel = b.model.map refNormalizeModel := by
    cases b.model with
    | none => rfl
    | some m => simp [normalizeModel_eq_ref]
  rw [h]

/-- Claim C2 is false as stated: on the model identifier a.b.xreasoning/y
the source normalizer yields b.xy, while stripping before the last dot and
removing the token only at the front, as the claim describes, yields
xreasoning/y. -/
theorem c2_normalizer_counterexample :
    (normalizeBody ⟨some "a.b.xreasoning/y", false, false⟩).model = some "b.xy" ∧
    specNormalizeModel "a.b.xreasoning/y" = "xreasoning/y" ∧
    ("b.xy" : String) ≠ "xreasoning/y" := by
  refine ⟨by decide, by decide, by decide⟩

/-- Claim C3: if no data line of the stream carries a truthy reasoning
field in its extracted delta, the transducer run from its initial state
emits no delimiter-marker chunk at all. -/
theorem c3_no_reasoning_no_markers (lines : List Line)
    (h : lines.all noReasoningLine = true) :
    markersOf (runLines (-1) lines).out = [] :=
  run_noReasoning_no_markers lines h

theorem c3_witness :
    ([Line.dataLine (Payload.valid ⟨none, some [⟨some ⟨none, some "Hello"⟩, none⟩]⟩),
      Line.dataLine (Payload.valid ⟨none, some [⟨none, some "stop"⟩]⟩)].all
        noReasoningLine = true) ∧
    markersOf (runLines (-1)
      [Line.dataLine (Payload.valid ⟨none, some [⟨some ⟨none, some "Hello"⟩, none⟩]⟩),
       Line.dataLine (Payload.valid ⟨none, some [⟨none, some "stop"⟩]⟩)]).out = [] :=
  ⟨by decide, c3_no_reasoning_no_markers _ (by decide)⟩

/-- Claim C4: the thinking_state is monotonic along the event loop, and a
run that starts in the answered state, which is exactly the remainder of a
response after the state reached answered, emits no further delimiter
marker, whatever the remaining events carry. -/
theorem c4_answered_no_more_markers :
    (∀ (st : Int) (lines : List Line), st ≤ (runLines st lines).final) ∧
    (∀ lines : List Line, markersOf (runLines 1 lines).out = []) :=
  ⟨fun st lines => run_mono lines st, run_answered_no_markers⟩

/-- Claim C5: every run emits the terminal sentinel at most once; and when
it is emitted, some line of the stream carried a truthy finish_reason, and
appending any further lines to the stream leaves the run unchanged, so
nothing past the terminal sentinel is ever consumed. -/
theorem c5_terminal_once (st : Int) (lines : List Line) :
    numDone (runLines st lines).out ≤ 1 ∧
    (1 ≤ numDone (runLines st lines).out →
      lines.any hasFinish = true ∧
      ∀ extra : List Line, runLines st (lines ++ extra) = runLines st lines) := by
  have hd := numDone_run lines st
  constructor
  · rw [hd]; split <;> omega
  · intro h1
    rw [hd] at h1
    have hh : (runLines st lines).halted = true := by
      cases hb : (runLines st lines).halted with
      | true => rfl
      | false => rw [hb] at h1; simp at h1
    exact ⟨run_halted_finish lines st hh, fun extra => run_append_halted lines st extra hh⟩

theorem c5_witness :
    1 ≤ numDone (runLines (-1)
      [Line.dataLine (Payload.valid ⟨none, some [⟨none, some "stop"⟩]⟩)]).out ∧
    [Line.dataLine (Payload.valid ⟨none, some [⟨none, some "stop"⟩]⟩)].any
      hasFinish = true :=
  ⟨by decide, ((c5_terminal_once (-1) _).2 (by decide)).1⟩

/-- Claim C6: when the lines before a malformed data line neither halt the
loop nor raise, the run of the whole stream emits exactly the chunks of
those earlier lines and then fails with the decode error; nothing after the
malformed line contributes anything. -/
theorem c6_decode_error_fatal (st : Int) (pre post : List Line)
    (h1 : (runLines st pre).halted = false) (h2 : (runLines st pre).err = none) :
    runLines st (pre ++ Line.dataLine Payload.invalid :: post) =
      ⟨(runLines st pre).out, (runLines st pre).final, false, some StreamErr.decodeErr⟩ := by
  rw [run_append_clean pre st (Line.dataLine Payload.invalid :: post) h1 h2]
  rw [runLines_cons_invalid]
  simp

theorem c6_witness :
    (runLines (-1)
      [Line.dataLine (Payload.valid ⟨none, some [⟨some ⟨none, some "Hello"⟩, none⟩]⟩)]).halted
        = false ∧
    (runLines (-1)
      [Line.dataLine (Payload.valid ⟨none, some [⟨some ⟨none, some "Hello"⟩, none⟩]⟩)]).err
        = none ∧
    runLines (-1)
      ([Line.dataLine (Payload.valid ⟨none, some [⟨some ⟨none, some "Hello"⟩, none⟩]⟩)] ++
        Line.dataLine Payload.invalid :: []) =
      ⟨[OutEvent.chunk none "Hello"], -1, false, some StreamErr.decodeErr⟩ :=
  ⟨by decide, by decide, c6_decode_error_fatal (-1) _ [] (by decide) (by decide)⟩

/-- Claim C7: an event with no choices key, and an event whose first choice
has no delta key, are both processed with the missing part defaulted to the
empty object, and the per-event step succeeds on them, in the first case as
a pure no-op and in the second emitting at most the terminal sentinel. -/
theorem c7_missing_fields_default (st : Int) (e : UpstreamEvent) :
    (e.choices = none → stepEvent st e = some ([], st, false)) ∧
    (∀ (ch : Choice) (cs : List Choice), e.choices = some (ch :: cs) → ch.delta = none →
      stepEvent st e = some ((if truthy ch.finish_reason then [OutEvent.done] else []),
        st, truthy ch.finish_reason)) := by
  constructor
  · intro h
    have hfc : firstChoice e = some emptyChoice := by simp [firstChoice, h]
    simp only [stepEvent, hfc, emptyChoice, Option.getD_none]
    rw [stepMarkers_emptyDelta, stepContent_emptyDelta]
    rfl
  · intro ch cs h hd
    have hfc : firstChoice e = some ch := by simp [firstChoice, h]
    simp only [stepEvent, hfc, hd, Option.getD_none]
    rw [stepMarkers_emptyDelta, stepContent_emptyDelta]
    rfl

theorem c7_witness :
    stepEvent 0 (⟨none, none⟩ : UpstreamEvent) = some ([], 0, false) :=
  (c7_missing_fields_default 0 ⟨none, none⟩).1 rfl

/-- Claim C8: for a non-streaming request, pipe hands the caller the
unawaited coroutine of the normal path; a transport failure then surfaces
as a propagated error when the caller awaits it, and no input ever makes
pipe return the structured error payload of its except clause, because
nothing inside the try block can raise. -/
theorem c8_transport_error_unhandled :
    pipe ⟨some "reasoning/deepseek/deepseek-r1", false, false⟩ =
      PipeReturn.normalTask
        (normalizeBody ⟨some "reasoning/deepseek/deepseek-r1", false, false⟩)
        handleNormalRequest ∧
    handleNormalRequest (TransportOutcome.failure "HTTPStatusError 500") =
      Except.error "HTTPStatusError 500" ∧
    ∀ b : InboundBody, isErrorPayload (pipe b) = false := by
  refine ⟨rfl, rfl, ?_⟩
  intro b
  unfold pipe
  cases hb : b.stream <;> simp [hb, isErrorPayload]

/-- Claim C9: decoding the JSON body built by construct_chunk recovers,
field for field, the id, the object literal, the model, the index, the
delta content, the delta role and the null finish_reason that were encoded,
for every creation timestamp. -/
theorem c9_chunk_roundtrip (eid model : Option String) (created : Int) (content : String) :
    decodeChunk (construct_chunk eid model created content) =
      some ⟨eid, "chat.completion.chunk", model, 0, content, "assistant", none⟩ := by
  cases eid <;> cases model <;> rfl

/-- Claim C10: an event processed in the answered state whose extracted
delta carries a truthy reasoning field still yields that reasoning text as
an ordinary content chunk, whatever the content field holds, with no
delimiter marker around it and the state unchanged. -/
theorem c10_reasoning_after_answered (e : UpstreamEvent) (ch : Choice)
    (h1 : firstChoice e = some ch)
    (h2 : truthy (ch.delta.getD emptyDelta).reasoning = true) :
    stepEvent 1 e = some
      (OutEvent.chunk e.id ((ch.delta.getD emptyDelta).reasoning.getD "") ::
        (if truthy ch.finish_reason then [OutEvent.done] else []),
       1, truthy ch.finish_reason) := by
  simp only [stepEvent, h1]
  rw [stepMarkers_answered]
  have hc : stepContent (ch.delta.getD emptyDelta) e.id =
      [OutEvent.chunk e.id ((ch.delta.getD emptyDelta).reasoning.getD "")] := by
    unfold stepContent contentOf
    rw [if_pos h2]
    have hne : ¬(((ch.delta.getD emptyDelta).reasoning.getD "").isEmpty = true) := by
      rw [truthy_getD_not_empty _ h2]
      exact Bool.false_ne_true
    rw [if_neg hne]
  rw [hc]
  rfl

theorem c10_witness :
    stepEvent 1 (⟨some "id1", some [⟨some ⟨some "wait", some "ans"⟩, none⟩]⟩ : UpstreamEvent) =
      some ([OutEvent.chunk (some "id1") "wait"], 1, false) :=
  c10_reasoning_after_answered _ ⟨some ⟨some "wait", some "ans"⟩, none⟩ (by decide) (by decide)

end ORT
